import Mathlib

/-!
Verification of the drone-buildah plugin (`docker.go`) against its
specification.  The Go source is shallowly embedded: each `command*`
function returns the argument vector of the `exec.Cmd` it constructs
(`Cmd.Args`, i.e. the executable name followed by the arguments), the
process environment is a total map from variable names to values (the
empty string standing for "unset", as `os.Getenv` reports it), and the
current time formatted by `time.Now().Format(time.RFC3339)` is passed in
as an explicit string parameter `now`.
-/

/-- Process environment as seen through `os.Getenv`: total map from
variable names to values, `""` for an unset variable. -/
abbrev Env := String → String

/-- Model of Go `strings.ToUpper` (ASCII range, which covers every key
this program passes to it). -/
def sToUpper (s : String) : String := ⟨s.data.map Char.toUpper⟩

/-- Model of Go `strings.ToLower` (ASCII range). -/
def sToLower (s : String) : String := ⟨s.data.map Char.toLower⟩

/-- Model of Go `strings.HasPrefix s pre`. -/
def sStartsWith (s pre : String) : Bool := pre.data.isPrefixOf s.data

/-- `const buildahExe = "buildah"` -/
def buildahExe : String := "buildah"

/-- Login defines Docker login parameters (struct `Login`). -/
structure Login where
  Registry : String
  Username : String
  Password : String
  Email : String
  Config : String
deriving DecidableEq, Repr

/-- Build defines Docker build parameters (struct `Build`). -/
structure Build where
  Remote : String
  Name : String
  Dockerfile : String
  Context : String
  Tags : List String
  Args : List String
  ArgsEnv : List String
  Target : String
  Squash : Bool
  Pull : Bool
  CacheFrom : List String
  Compress : Bool
  Repo : String
  LabelSchema : List String
  AutoLabel : Bool
  Labels : List String
  Link : String
  NoCache : Bool
  AddHost : List String
  Quiet : Bool
  S3CacheDir : String
  S3Bucket : String
  S3Endpoint : String
  S3Region : String
  S3Key : String
  S3Secret : String
  S3UseSSL : Bool
  Layers : Bool
deriving DecidableEq, Repr

/-- Plugin defines the Docker plugin parameters (struct `Plugin`). -/
structure Plugin where
  Login : Login
  Build : Build
  Dryrun : Bool
  Cleanup : Bool
deriving DecidableEq, Repr

/-- `hasProxyBuildArg`: reports whether some stored build-arg starts with
the key as given or with its upper-case form. -/
def hasProxyBuildArg (build : Build) (key : String) : Bool :=
  let keyUpper := sToUpper key
  build.Args.any (fun s => sStartsWith s key || sStartsWith s keyUpper)

/-- `getProxyValue`: the exact-case environment variable if non-empty,
otherwise the upper-case one. -/
def getProxyValue (env : Env) (key : String) : String :=
  let value := env key
  if 0 < value.length then value else env (sToUpper key)

/-- `addProxyValue`: when the proxy value is non-empty and no existing
build-arg uses the key, append `key=value` and `KEY=value` to `Args`.
The Go function mutates `*Build`; here it returns the updated record. -/
def addProxyValue (env : Env) (build : Build) (key : String) : Build :=
  let value := getProxyValue env key
  if 0 < value.length && !hasProxyBuildArg build key then
    { build with Args :=
        (build.Args ++ [key ++ "=" ++ value]) ++ [sToUpper key ++ "=" ++ value] }
  else build

/-- `addProxyBuildArgs`: inject the three fixed proxy keys, in source
order `http_proxy`, `https_proxy`, `no_proxy`. -/
def addProxyBuildArgs (env : Env) (build : Build) : Build :=
  addProxyValue env (addProxyValue env (addProxyValue env build "http_proxy") "https_proxy") "no_proxy"

/-- `commandLogin`. -/
def commandLogin (login : Login) : List String :=
  let args := ["--storage-driver", "vfs", "login", "-u", login.Username, "-p", login.Password]
  let args := if login.Email != "" then args ++ ["-e", login.Email] else args
  let args := args ++ [login.Registry]
  buildahExe :: args

/-- `commandPull`. -/
def commandPull (repo : String) : List String :=
  buildahExe :: ["--storage-driver", "vfs", "pull", repo]

/-- `commandVersion`. -/
def commandVersion : List String :=
  buildahExe :: ["--storage-driver", "vfs", "version"]

/-- `commandInfo`. -/
def commandInfo : List String :=
  buildahExe :: ["--storage-driver", "vfs", "info"]

/-- The `for _, arg := range build.ArgsEnv { addProxyValue(&build, arg) }`
loop inside `commandBuild`: the build record after the per-entry
environment-sourced injections. -/
def argsEnvApplied (env : Env) (build : Build) : Build :=
  build.ArgsEnv.foldl (fun b arg => addProxyValue env b arg) build

/-- `commandBuild`: translate a `Build` into the argument vector of the
`buildah bud` invocation, line by line from the source. -/
def commandBuild (env : Env) (now : String) (build : Build) : List String :=
  let args := ["--storage-driver", "vfs", "bud", "-f", build.Dockerfile]
  let args := if build.Squash then args ++ ["--squash"] else args
  let args := if build.Compress then args ++ ["--compress"] else args
  let args := if build.Pull then args ++ ["--pull=true"] else args
  let args := if build.NoCache then args ++ ["--no-cache"] else args
  let args := args ++ build.CacheFrom.flatMap (fun arg => ["--cache-from", arg])
  let build := argsEnvApplied env build
  let args := args ++ build.Args.flatMap (fun arg => ["--build-arg", arg])
  let args := args ++ build.AddHost.flatMap (fun host => ["--add-host", host])
  let args := if build.Target != "" then args ++ ["--target", build.Target] else args
  let args := if build.Quiet then args ++ ["--quiet"] else args
  let args :=
    if build.Layers then
      let args := args ++ ["--layers=true"]
      if build.S3CacheDir != "" then
        let args := args ++ ["--s3-local-cache-dir", build.S3CacheDir]
        let args := if build.S3Bucket != "" then args ++ ["--s3-bucket", build.S3Bucket] else args
        let args := if build.S3Endpoint != "" then args ++ ["--s3-endpoint", build.S3Endpoint] else args
        let args := if build.S3Region != "" then args ++ ["--s3-region", build.S3Region] else args
        let args := if build.S3Key != "" then args ++ ["--s3-key", build.S3Key] else args
        let args := if build.S3Secret != "" then args ++ ["--s3-secret", build.S3Secret] else args
        if build.S3UseSSL then args ++ ["--s3-use-ssl=true"] else args
      else args
    else args
  let args :=
    if build.AutoLabel then
      let labelSchema := ["created=" ++ now, "revision=" ++ build.Name,
        "source=" ++ build.Remote, "url=" ++ build.Link]
      let labelPrefix := "org.opencontainers.image"
      let labelSchema :=
        if 0 < build.LabelSchema.length then labelSchema ++ build.LabelSchema else labelSchema
      args ++ labelSchema.flatMap (fun label => ["--label", labelPrefix ++ "." ++ label])
    else args
  let args :=
    if 0 < build.Labels.length then
      args ++ build.Labels.flatMap (fun label => ["--label", label])
    else args
  let args := args ++ ["-t", build.Name]
  let args := args ++ [build.Context]
  buildahExe :: args

/-- `commandTag`: `buildah tag <Name> <Repo>:<tag>`. -/
def commandTag (build : Build) (tag : String) : List String :=
  let source := build.Name
  let target := build.Repo ++ ":" ++ tag
  buildahExe :: ["--storage-driver", "vfs", "tag", source, target]

/-- `commandPush`: `buildah push <Repo>:<tag>`. -/
def commandPush (build : Build) (tag : String) : List String :=
  let target := build.Repo ++ ":" ++ tag
  buildahExe :: ["--storage-driver", "vfs", "push", target]

/-- `commandRmi`. -/
def commandRmi (tag : String) : List String :=
  buildahExe :: ["--storage-driver", "vfs", "rmi", tag]

/-- The command-list construction of `Plugin.Exec` (lines 108-129): the
ordered list of `exec.Cmd` argument vectors accumulated in `cmds`.  The
plugin's `Build` is the one in scope at that point of `Exec`, i.e. after
`addProxyBuildArgs(&p.Build)` has run (see `execPlan`). -/
def execCmds (env : Env) (now : String) (p : Plugin) : List (List String) :=
  let cmds : List (List String) := []
  let cmds := cmds ++ [commandVersion]
  let cmds := cmds ++ [commandInfo]
  let cmds := p.Build.CacheFrom.foldl (fun cmds img => cmds ++ [commandPull img]) cmds
  let cmds := cmds ++ [commandBuild env now p.Build]
  let cmds := p.Build.Tags.foldl (fun cmds tag =>
    let cmds := cmds ++ [commandTag p.Build tag]
    if !p.Dryrun then cmds ++ [commandPush p.Build tag] else cmds) cmds
  if p.Cleanup then cmds ++ [commandRmi p.Build.Name] else cmds

/-- The plugin state after `addProxyBuildArgs(&p.Build)` in `Plugin.Exec`
(line 106): only the build-arg list of the embedded `Build` may change. -/
def pluginAfterProxy (env : Env) (p : Plugin) : Plugin :=
  { p with Build := addProxyBuildArgs env p.Build }

/-- The full command sequence produced by `Plugin.Exec` (after the
environment/credential setup): proxy injection, then the command list. -/
def execPlan (env : Env) (now : String) (p : Plugin) : List (List String) :=
  execCmds env now (pluginAfterProxy env p)

/-- The execution loop of `Plugin.Exec` (lines 131-143): run each command
in order; on the first failure return the wrapped error
(`fmt.Errorf("command failed: %s\nerror: %w", ...)`), otherwise `none`
(the `nil` return).  `res` is the oracle for `cmd.Run()`: `none` means
the command exits successfully, `some err` that it fails with `err`. -/
def runCmds (res : List String → Option String) : List (List String) → Option String
  | [] => none
  | cmd :: rest =>
    match res cmd with
    | some err =>
      some ("command failed: " ++ String.intercalate " " cmd ++ "\nerror: " ++ err)
    | none => runCmds res rest

/-- The `--layers` block of `commandBuild`, as a single concatenation
(derived normal form, equated with the source definition below). -/
def layersNF (b : Build) : List String :=
  if b.Layers then
    "--layers=true" ::
      (if b.S3CacheDir != "" then
        ["--s3-local-cache-dir", b.S3CacheDir]
        ++ (if b.S3Bucket != "" then ["--s3-bucket", b.S3Bucket] else [])
        ++ (if b.S3Endpoint != "" then ["--s3-endpoint", b.S3Endpoint] else [])
        ++ (if b.S3Region != "" then ["--s3-region", b.S3Region] else [])
        ++ (if b.S3Key != "" then ["--s3-key", b.S3Key] else [])
        ++ (if b.S3Secret != "" then ["--s3-secret", b.S3Secret] else [])
        ++ (if b.S3UseSSL then ["--s3-use-ssl=true"] else [])
      else [])
  else []

/-- The auto-label block of `commandBuild`, as a single concatenation
(derived normal form). -/
def autoLabelNF (now : String) (b : Build) : List String :=
  if b.AutoLabel then
    (["created=" ++ now, "revision=" ++ b.Name, "source=" ++ b.Remote, "url=" ++ b.Link]
      ++ (if 0 < b.LabelSchema.length then b.LabelSchema else [])).flatMap
      (fun label => ["--label", "org.opencontainers.image" ++ "." ++ label])
  else []

/-- Normal form of `commandBuild`: the same token list written as one
concatenation of the conditional blocks, in source order. -/
def commandBuildNF (env : Env) (now : String) (build : Build) : List String :=
  let b := argsEnvApplied env build
  buildahExe :: (["--storage-driver", "vfs", "bud", "-f", build.Dockerfile]
    ++ (if build.Squash then ["--squash"] else [])
    ++ (if build.Compress then ["--compress"] else [])
    ++ (if build.Pull then ["--pull=true"] else [])
    ++ (if build.NoCache then ["--no-cache"] else [])
    ++ build.CacheFrom.flatMap (fun arg => ["--cache-from", arg])
    ++ b.Args.flatMap (fun arg => ["--build-arg", arg])
    ++ b.AddHost.flatMap (fun host => ["--add-host", host])
    ++ (if b.Target != "" then ["--target", b.Target] else [])
    ++ (if b.Quiet then ["--quiet"] else [])
    ++ layersNF b
    ++ autoLabelNF now b
    ++ (if 0 < b.Labels.length then b.Labels.flatMap (fun label => ["--label", label]) else [])
    ++ ["-t", b.Name]
    ++ [b.Context])

/-- All-empty build record, the base of the concrete test inputs below. -/
def emptyBuild : Build where
  Remote := ""
  Name := ""
  Dockerfile := ""
  Context := ""
  Tags := []
  Args := []
  ArgsEnv := []
  Target := ""
  Squash := false
  Pull := false
  CacheFrom := []
  Compress := false
  Repo := ""
  LabelSchema := []
  AutoLabel := false
  Labels := []
  Link := ""
  NoCache := false
  AddHost := []
  Quiet := false
  S3CacheDir := ""
  S3Bucket := ""
  S3Endpoint := ""
  S3Region := ""
  S3Key := ""
  S3Secret := ""
  S3UseSSL := false
  Layers := false

/-- All-empty login record. -/
def emptyLogin : Login where
  Registry := ""
  Username := ""
  Password := ""
  Email := ""
  Config := ""

/-- Environment with no variables set. -/
def envEmpty : Env := fun _ => ""

/-- Environment with only `http_proxy` set, to `p`. -/
def envHttp : Env := fun s => if s = "http_proxy" then "p" else ""

/-- Environment with only `ek` set, to `v` (an `ArgsEnv`-sourced key). -/
def envEk : Env := fun s => if s = "ek" then "v" else ""

/-- Build with one explicit arg and one env-sourced arg key. -/
def buildC6 : Build := { emptyBuild with Args := ["A=1"], ArgsEnv := ["ek"] }

/-- Build whose arg list holds a mixed-case proxy arg. -/
def buildC7 : Build := { emptyBuild with Args := ["hTtp_proxy=x"] }

/-- Build whose arg list holds an upper-case proxy arg. -/
def buildC7w : Build := { emptyBuild with Args := ["HTTP_PROXY=z"] }

/-- Build with auto-labelling on, one schema entry and one explicit label. -/
def buildC5 : Build :=
  { emptyBuild with
      AutoLabel := true
      LabelSchema := ["ls=1"]
      Labels := ["x=y"]
      Name := "n"
      Remote := "rm"
      Link := "lk"
      Context := "ctx"
      Dockerfile := "D" }

/-- Plugin with one cache-from image and nothing else. -/
def pluginC1 : Plugin where
  Login := emptyLogin
  Build := { emptyBuild with CacheFrom := ["c"], Name := "n" }
  Dryrun := true
  Cleanup := false

/-- Command-result oracle that fails exactly the `pull c` command. -/
def resPullFail : List String → Option String :=
  fun cmd => if cmd = commandPull "c" then some "boom" else none

/-- Plugin with one tag and pushes enabled. -/
def pluginC10 : Plugin where
  Login := emptyLogin
  Build := { emptyBuild with Name := "n", Repo := "r", Tags := ["v"] }
  Dryrun := false
  Cleanup := false

/-- Classifier for push commands: every command this program builds keeps
its subcommand at index 3 of the argument vector, so a command is a push
exactly when that token is `push`. -/
def isPushCmd (cmd : List String) : Bool := cmd[3]? == some "push"

/-- Every push in `xs` is the push of some configured tag and is
immediately preceded by the matching tag command. -/
def pushTagged (b : Build) (xs : List (List String)) : Prop :=
  ∀ i cmd, xs[i]? = some cmd → isPushCmd cmd = true →
    ∃ t, t ∈ b.Tags ∧ cmd = commandPush b t ∧ 1 ≤ i ∧ xs[i-1]? = some (commandTag b t)

theorem append_ite (c : Prop) [Decidable c] (args x : List String) :
    (if c then args ++ x else args) = args ++ (if c then x else []) := by
  split <;> simp

theorem commandBuild_eq (env : Env) (now : String) (build : Build) :
    commandBuild env now build = commandBuildNF env now build := by
  cases hL : (argsEnvApplied env build).Layers with
  | false =>
    simp only [commandBuild, commandBuildNF, layersNF, autoLabelNF, hL, Bool.false_eq_true,
      if_false, append_ite]
    try simp [List.append_assoc]
  | true =>
    by_cases hS : (argsEnvApplied env build).S3CacheDir = ""
    · simp only [commandBuild, commandBuildNF, layersNF, autoLabelNF, hL, hS, if_true,
        bne_self_eq_false, Bool.false_eq_true, if_false, append_ite]
      try simp [List.append_assoc]
    · simp only [commandBuild, commandBuildNF, layersNF, autoLabelNF, hL, if_true, append_ite,
        bne_iff_ne, ne_eq, hS, not_false_eq_true, if_true]
      try simp [List.append_assoc]

theorem addProxyValue_withArgs (env : Env) (b : Build) (k : String) (a : List String) :
    { addProxyValue env b k with Args := a } = { b with Args := a } := by
  simp only [addProxyValue]
  split <;> rfl

theorem foldl_addProxyValue_withArgs (env : Env) (keys : List String) (b : Build)
    (a : List String) :
    { keys.foldl (fun b k => addProxyValue env b k) b with Args := a } = { b with Args := a } := by
  induction keys generalizing b with
  | nil => rfl
  | cons k ks ih =>
    rw [List.foldl_cons, ih, addProxyValue_withArgs]

theorem argsEnvApplied_withArgs (env : Env) (b : Build) (a : List String) :
    { argsEnvApplied env b with Args := a } = { b with Args := a } :=
  foldl_addProxyValue_withArgs env b.ArgsEnv b a

theorem argsEnvApplied_frame (env : Env) (b : Build) :
    { argsEnvApplied env b with Args := b.Args } = b :=
  argsEnvApplied_withArgs env b b.Args

theorem addProxyBuildArgs_withArgs (env : Env) (b : Build) (a : List String) :
    { addProxyBuildArgs env b with Args := a } = { b with Args := a } := by
  unfold addProxyBuildArgs
  rw [addProxyValue_withArgs, addProxyValue_withArgs, addProxyValue_withArgs]

theorem addProxyBuildArgs_frame (env : Env) (b : Build) :
    { addProxyBuildArgs env b with Args := b.Args } = b :=
  addProxyBuildArgs_withArgs env b b.Args

theorem argsEnvApplied_Name (env : Env) (b : Build) : (argsEnvApplied env b).Name = b.Name := by
  have h := congrArg Build.Name (argsEnvApplied_frame env b)
  exact h

theorem argsEnvApplied_Remote (env : Env) (b : Build) : (argsEnvApplied env b).Remote = b.Remote := by
  have h := congrArg Build.Remote (argsEnvApplied_frame env b)
  exact h

theorem argsEnvApplied_Link (env : Env) (b : Build) : (argsEnvApplied env b).Link = b.Link := by
  have h := congrArg Build.Link (argsEnvApplied_frame env b)
  exact h

theorem argsEnvApplied_Context (env : Env) (b : Build) :
    (argsEnvApplied env b).Context = b.Context := by
  have h := congrArg Build.Context (argsEnvApplied_frame env b)
  exact h

theorem argsEnvApplied_AddHost (env : Env) (b : Build) :
    (argsEnvApplied env b).AddHost = b.AddHost := by
  have h := congrArg Build.AddHost (argsEnvApplied_frame env b)
  exact h

theorem argsEnvApplied_AutoLabel (env : Env) (b : Build) :
    (argsEnvApplied env b).AutoLabel = b.AutoLabel := by
  have h := congrArg Build.AutoLabel (argsEnvApplied_frame env b)
  exact h

theorem argsEnvApplied_LabelSchema (env : Env) (b : Build) :
    (argsEnvApplied env b).LabelSchema = b.LabelSchema := by
  have h := congrArg Build.LabelSchema (argsEnvApplied_frame env b)
  exact h

theorem argsEnvApplied_Labels (env : Env) (b : Build) :
    (argsEnvApplied env b).Labels = b.Labels := by
  have h := congrArg Build.Labels (argsEnvApplied_frame env b)
  exact h

theorem addProxyBuildArgs_Name (env : Env) (b : Build) :
    (addProxyBuildArgs env b).Name = b.Name := by
  have h := congrArg Build.Name (addProxyBuildArgs_frame env b)
  exact h

theorem addProxyBuildArgs_Repo (env : Env) (b : Build) :
    (addProxyBuildArgs env b).Repo = b.Repo := by
  have h := congrArg Build.Repo (addProxyBuildArgs_frame env b)
  exact h

theorem addProxyBuildArgs_Tags (env : Env) (b : Build) :
    (addProxyBuildArgs env b).Tags = b.Tags := by
  have h := congrArg Build.Tags (addProxyBuildArgs_frame env b)
  exact h

theorem addProxyBuildArgs_CacheFrom (env : Env) (b : Build) :
    (addProxyBuildArgs env b).CacheFrom = b.CacheFrom := by
  have h := congrArg Build.CacheFrom (addProxyBuildArgs_frame env b)
  exact h

theorem commandTag_proxy (env : Env) (b : Build) (tag : String) :
    commandTag (addProxyBuildArgs env b) tag = commandTag b tag := by
  unfold commandTag
  rw [addProxyBuildArgs_Name, addProxyBuildArgs_Repo]

theorem commandPush_proxy (env : Env) (b : Build) (tag : String) :
    commandPush (addProxyBuildArgs env b) tag = commandPush b tag := by
  unfold commandPush
  rw [addProxyBuildArgs_Repo]

theorem foldl_append_flatMap {α β : Type} (g : α → List β) (l : List α) (acc : List β) :
    l.foldl (fun cmds x => cmds ++ g x) acc = acc ++ l.flatMap g := by
  induction l generalizing acc with
  | nil => simp
  | cons x xs ih => simp [ih]

theorem flatMap_pure {α β : Type} (f : α → β) (l : List α) :
    l.flatMap (fun x => [f x]) = l.map f := by
  induction l with
  | nil => rfl
  | cons x xs ih => simp [ih]

theorem foldl_tagPush (b : Build) (dry : Bool) (tags : List String)
    (acc : List (List String)) :
    tags.foldl (fun cmds tag =>
      let cmds := cmds ++ [commandTag b tag]
      if !dry then cmds ++ [commandPush b tag] else cmds) acc
    = acc ++ tags.flatMap (fun tag =>
        commandTag b tag :: (if dry then [] else [commandPush b tag])) := by
  have hf : (fun (cmds : List (List String)) tag =>
      let cmds := cmds ++ [commandTag b tag]
      if !dry then cmds ++ [commandPush b tag] else cmds)
      = fun cmds tag =>
          cmds ++ (commandTag b tag :: (if dry then [] else [commandPush b tag])) := by
    funext cmds tag
    cases dry <;> simp
  rw [hf]
  exact foldl_append_flatMap _ tags acc

/-- Normal form of the `Plugin.Exec` command sequence. -/
theorem execPlan_eq (env : Env) (now : String) (p : Plugin) :
    execPlan env now p =
      [commandVersion, commandInfo]
      ++ p.Build.CacheFrom.map commandPull
      ++ [commandBuild env now (addProxyBuildArgs env p.Build)]
      ++ p.Build.Tags.flatMap (fun tag =>
          commandTag p.Build tag :: (if p.Dryrun then [] else [commandPush p.Build tag]))
      ++ (if p.Cleanup then [commandRmi p.Build.Name] else []) := by
  unfold execPlan execCmds pluginAfterProxy
  simp only [foldl_append_flatMap, foldl_tagPush, addProxyBuildArgs_CacheFrom,
    addProxyBuildArgs_Tags, addProxyBuildArgs_Name, commandTag_proxy, commandPush_proxy,
    append_ite]
  cases hC : p.Cleanup <;> simp [List.append_assoc, flatMap_pure]

theorem addProxyValue_args_extend (env : Env) (b : Build) (k : String) :
    ∃ extra, (addProxyValue env b k).Args = b.Args ++ extra := by
  simp only [addProxyValue]
  split
  · refine ⟨[k ++ "=" ++ getProxyValue env k, sToUpper k ++ "=" ++ getProxyValue env k], ?_⟩
    simp [List.append_assoc]
  · exact ⟨[], by simp⟩

theorem foldl_args_extend (env : Env) (keys : List String) (b : Build) :
    ∃ extra, (keys.foldl (fun b k => addProxyValue env b k) b).Args = b.Args ++ extra := by
  induction keys generalizing b with
  | nil => exact ⟨[], by simp⟩
  | cons k ks ih =>
    obtain ⟨e1, h1⟩ := addProxyValue_args_extend env b k
    obtain ⟨e2, h2⟩ := ih (addProxyValue env b k)
    exact ⟨e1 ++ e2, by rw [List.foldl_cons, h2, h1, List.append_assoc]⟩

theorem argsEnvApplied_args_extend (env : Env) (b : Build) :
    ∃ extra, (argsEnvApplied env b).Args = b.Args ++ extra :=
  foldl_args_extend env b.ArgsEnv b

theorem hasProxy_extend {b b' : Build} {k : String} (extra : List String)
    (hA : b'.Args = b.Args ++ extra) (h : hasProxyBuildArg b k = true) :
    hasProxyBuildArg b' k = true := by
  simp only [hasProxyBuildArg] at h ⊢
  rw [hA, List.any_append, h, Bool.true_or]

theorem sStartsWith_key (k a b : String) : sStartsWith (k ++ a ++ b) k = true := by
  simp only [sStartsWith, String.data_append]
  rw [List.isPrefixOf_iff_prefix, List.append_assoc]
  exact List.prefix_append _ _

theorem addProxyValue_noop (env : Env) (b : Build) (k : String)
    (h : (getProxyValue env k).length = 0 ∨ hasProxyBuildArg b k = true) :
    addProxyValue env b k = b := by
  simp only [addProxyValue]
  rcases h with h | h
  · simp [h]
  · simp [h]

theorem hasProxy_after_addProxyValue (env : Env) (b : Build) (k : String)
    (hv : 0 < (getProxyValue env k).length) :
    hasProxyBuildArg (addProxyValue env b k) k = true := by
  by_cases h : hasProxyBuildArg b k = true
  · obtain ⟨e, he⟩ := addProxyValue_args_extend env b k
    exact hasProxy_extend e he h
  · have hfalse : hasProxyBuildArg b k = false := by
      cases hb : hasProxyBuildArg b k
      · rfl
      · exact absurd hb h
    simp only [addProxyValue]
    rw [if_pos (by simp [hv, hfalse])]
    simp only [hasProxyBuildArg]
    simp [sStartsWith_key]

theorem addProxyBuildArgs_fix (env : Env) (c : Build)
    (h1 : (getProxyValue env "http_proxy").length = 0 ∨
      hasProxyBuildArg c "http_proxy" = true)
    (h2 : (getProxyValue env "https_proxy").length = 0 ∨
      hasProxyBuildArg c "https_proxy" = true)
    (h3 : (getProxyValue env "no_proxy").length = 0 ∨
      hasProxyBuildArg c "no_proxy" = true) :
    addProxyBuildArgs env c = c := by
  unfold addProxyBuildArgs
  rw [addProxyValue_noop env c "http_proxy" h1, addProxyValue_noop env c "https_proxy" h2,
    addProxyValue_noop env c "no_proxy" h3]

theorem hasProxy_addProxyBuildArgs (env : Env) (b : Build) (k : String)
    (hk : k = "http_proxy" ∨ k = "https_proxy" ∨ k = "no_proxy")
    (hv : 0 < (getProxyValue env k).length) :
    hasProxyBuildArg (addProxyBuildArgs env b) k = true := by
  unfold addProxyBuildArgs
  rcases hk with hk | hk | hk <;> subst hk
  · obtain ⟨e2, he2⟩ := addProxyValue_args_extend env (addProxyValue env b "http_proxy") "https_proxy"
    obtain ⟨e3, he3⟩ := addProxyValue_args_extend env
      (addProxyValue env (addProxyValue env b "http_proxy") "https_proxy") "no_proxy"
    exact hasProxy_extend e3 he3
      (hasProxy_extend e2 he2 (hasProxy_after_addProxyValue env b "http_proxy" hv))
  · obtain ⟨e3, he3⟩ := addProxyValue_args_extend env
      (addProxyValue env (addProxyValue env b "http_proxy") "https_proxy") "no_proxy"
    exact hasProxy_extend e3 he3
      (hasProxy_after_addProxyValue env (addProxyValue env b "http_proxy") "https_proxy" hv)
  · exact hasProxy_after_addProxyValue env
      (addProxyValue env (addProxyValue env b "http_proxy") "https_proxy") "no_proxy" hv

theorem isPushCmd_commandPull (repo : String) : isPushCmd (commandPull repo) = false := by
  simp [isPushCmd, commandPull, buildahExe]

theorem isPushCmd_commandTag (b : Build) (t : String) :
    isPushCmd (commandTag b t) = false := by
  simp [isPushCmd, commandTag, buildahExe]

theorem isPushCmd_commandPush (b : Build) (t : String) :
    isPushCmd (commandPush b t) = true := by
  simp [isPushCmd, commandPush, buildahExe]

theorem isPushCmd_commandRmi (t : String) : isPushCmd (commandRmi t) = false := by
  simp [isPushCmd, commandRmi, buildahExe]

theorem isPushCmd_commandBuild (env : Env) (now : String) (b : Build) :
    isPushCmd (commandBuild env now b) = false := by
  rw [commandBuild_eq]
  simp [isPushCmd, commandBuildNF, buildahExe]

theorem pushTagged_nil (b : Build) : pushTagged b [] := by
  intro i cmd h _
  simp at h

theorem pushTagged_append_no_push {b : Build} {xs ys : List (List String)}
    (hxs : pushTagged b xs) (hys : ∀ cmd ∈ ys, isPushCmd cmd = false) :
    pushTagged b (xs ++ ys) := by
  intro i cmd hget hpush
  by_cases hi : i < xs.length
  · rw [List.getElem?_append_left hi] at hget
    obtain ⟨t, ht, hc, h1, hprev⟩ := hxs i cmd hget hpush
    refine ⟨t, ht, hc, h1, ?_⟩
    rw [List.getElem?_append_left (by omega)]
    exact hprev
  · push_neg at hi
    rw [List.getElem?_append_right hi] at hget
    have hmem : cmd ∈ ys := by
      have := List.getElem?_eq_some.mp hget
      obtain ⟨hlt, hfeq⟩ := this
      exact hfeq ▸ List.getElem_mem hlt
    rw [hys cmd hmem] at hpush
    cases hpush

theorem pushTagged_append_tag_push {b : Build} {xs : List (List String)} {t : String}
    (hxs : pushTagged b xs) (ht : t ∈ b.Tags) :
    pushTagged b (xs ++ [commandTag b t, commandPush b t]) := by
  intro i cmd hget hpush
  by_cases hi : i < xs.length
  · rw [List.getElem?_append_left hi] at hget
    obtain ⟨t', ht', hc, h1, hprev⟩ := hxs i cmd hget hpush
    refine ⟨t', ht', hc, h1, ?_⟩
    rw [List.getElem?_append_left (by omega)]
    exact hprev
  · push_neg at hi
    rw [List.getElem?_append_right hi] at hget
    obtain ⟨j, hj⟩ : ∃ j, i = xs.length + j := ⟨i - xs.length, by omega⟩
    subst hj
    rw [Nat.add_sub_cancel_left] at hget
    match j, hget with
    | 0, hget =>
      simp at hget
      rw [← hget, isPushCmd_commandTag] at hpush
      cases hpush
    | 1, hget =>
      simp at hget
      refine ⟨t, ht, hget.symm, by omega, ?_⟩
      rw [List.getElem?_append_right (by omega : xs.length ≤ xs.length + 1 - 1)]
      simp
    | (n + 2), hget =>
      simp at hget

theorem pushTagged_flatMap {b : Build} (dry : Bool) (ts : List String)
    (acc : List (List String)) (hacc : pushTagged b acc) (hts : ∀ t ∈ ts, t ∈ b.Tags) :
    pushTagged b (acc ++ ts.flatMap (fun t =>
      commandTag b t :: (if dry then [] else [commandPush b t]))) := by
  induction ts generalizing acc with
  | nil => simpa using hacc
  | cons t ts ih =>
    have hstep : pushTagged b
        (acc ++ (commandTag b t :: (if dry then [] else [commandPush b t]))) := by
      cases dry
      · simpa using pushTagged_append_tag_push hacc (hts t (by simp))
      · refine pushTagged_append_no_push hacc ?_
        intro cmd hcmd
        simp at hcmd
        rw [hcmd, isPushCmd_commandTag]
    have hnext := ih _ hstep (fun t' ht' => hts t' (by simp [ht']))
    simpa [List.append_assoc] using hnext

theorem execPlan_pushTagged (env : Env) (now : String) (p : Plugin) :
    pushTagged p.Build (execPlan env now p) := by
  have hys0 : ∀ cmd ∈ [commandVersion, commandInfo] ++ p.Build.CacheFrom.map commandPull
      ++ [commandBuild env now (addProxyBuildArgs env p.Build)], isPushCmd cmd = false := by
    intro cmd hcmd
    simp only [List.mem_append, List.mem_cons, List.mem_map, List.mem_singleton,
      List.not_mem_nil, or_false] at hcmd
    rcases hcmd with ((h | h) | ⟨img, _, h⟩) | h
    · rw [h]; decide
    · rw [h]; decide
    · rw [← h]; exact isPushCmd_commandPull img
    · rw [h]; exact isPushCmd_commandBuild env now (addProxyBuildArgs env p.Build)
  have hbase : pushTagged p.Build
      ([commandVersion, commandInfo] ++ p.Build.CacheFrom.map commandPull
        ++ [commandBuild env now (addProxyBuildArgs env p.Build)]) := by
    have h0 : pushTagged p.Build
        ([] ++ ([commandVersion, commandInfo] ++ p.Build.CacheFrom.map commandPull
          ++ [commandBuild env now (addProxyBuildArgs env p.Build)])) :=
      pushTagged_append_no_push (pushTagged_nil p.Build) hys0
    simpa using h0
  have hmid := pushTagged_flatMap p.Dryrun p.Build.Tags _ hbase (fun _ ht => ht)
  have hys1 : ∀ cmd ∈ (if p.Cleanup then [commandRmi p.Build.Name] else []),
      isPushCmd cmd = false := by
    intro cmd hcmd
    split at hcmd
    · simp at hcmd
      rw [hcmd, isPushCmd_commandRmi]
    · simp at hcmd
  have hfin : pushTagged p.Build
      ((([commandVersion, commandInfo] ++ p.Build.CacheFrom.map commandPull
          ++ [commandBuild env now (addProxyBuildArgs env p.Build)])
        ++ p.Build.Tags.flatMap (fun tag =>
            commandTag p.Build tag :: (if p.Dryrun then [] else [commandPush p.Build tag])))
       ++ (if p.Cleanup then [commandRmi p.Build.Name] else [])) :=
    pushTagged_append_no_push hmid hys1
  have hplan : execPlan env now p =
      (([commandVersion, commandInfo] ++ p.Build.CacheFrom.map commandPull
        ++ [commandBuild env now (addProxyBuildArgs env p.Build)])
       ++ p.Build.Tags.flatMap (fun tag =>
           commandTag p.Build tag :: (if p.Dryrun then [] else [commandPush p.Build tag])))
      ++ (if p.Cleanup then [commandRmi p.Build.Name] else []) := by
    rw [execPlan_eq]
  rw [hplan]
  exact hfin

theorem ite_len_self (l : List String) : (if 0 < l.length then l else []) = l := by
  cases l <;> simp

theorem ite_len_flatMap (l : List String) (g : String → List String) :
    (if 0 < l.length then l.flatMap g else []) = l.flatMap g := by
  cases l <;> simp

/-- C1 counterexample: with an oracle under which only the `pull c`
command fails, the `Plugin.Exec` loop of `docker.go` aborts and returns
the wrapped pull error — the cache-from pull failure is NOT tolerated,
contradicting the claim that execution continues past it. -/
theorem c1_pull_failure_aborts_run :
    runCmds resPullFail (execPlan envEmpty "T" pluginC1) =
      some "command failed: buildah --storage-driver vfs pull c\nerror: boom" := by
  decide

/-- C1 (amended): in `Plugin.Exec` of `docker.go`, a failure of ANY
command in the sequence — cache-from pulls and the final remove-image
included — aborts the run immediately, returning the first offending
error wrapped with the command line. -/
theorem run_aborts_at_first_failure (res : List String → Option String)
    (pre post : List (List String)) (cmd : List String) (err : String)
    (hpre : ∀ c ∈ pre, res c = none) (hcmd : res cmd = some err) :
    runCmds res (pre ++ cmd :: post) =
      some ("command failed: " ++ String.intercalate " " cmd ++ "\nerror: " ++ err) := by
  induction pre with
  | nil => simp [runCmds, hcmd]
  | cons c cs ih =>
    have hc : res c = none := hpre c (by simp)
    simp only [List.cons_append, runCmds, hc]
    exact ih (fun c' h' => hpre c' (by simp [h']))

theorem run_aborts_at_first_failure_witness :
    runCmds resPullFail ([] ++ commandPull "c" :: []) =
      some ("command failed: " ++ String.intercalate " " (commandPull "c")
        ++ "\nerror: " ++ "boom") :=
  run_aborts_at_first_failure resPullFail [] [] (commandPull "c") "boom"
    (by intro c hc; cases hc) (by decide)

/-- C2: for every `Build`, the `commandBuild` argument vector starts with
the executable, the storage-driver flag, the `bud` subcommand immediately
followed by `-f` and the Dockerfile, and ends with the context path as
its final token. -/
theorem commandBuild_dockerfile_first_context_last (env : Env) (now : String) (build : Build) :
    ∃ mid, commandBuild env now build =
      [buildahExe, "--storage-driver", "vfs", "bud", "-f", build.Dockerfile]
        ++ mid ++ [build.Context] := by
  rw [commandBuild_eq]
  simp only [commandBuildNF]
  refine ⟨(if build.Squash then ["--squash"] else [])
      ++ (if build.Compress then ["--compress"] else [])
      ++ (if build.Pull then ["--pull=true"] else [])
      ++ (if build.NoCache then ["--no-cache"] else [])
      ++ build.CacheFrom.flatMap (fun arg => ["--cache-from", arg])
      ++ (argsEnvApplied env build).Args.flatMap (fun arg => ["--build-arg", arg])
      ++ (argsEnvApplied env build).AddHost.flatMap (fun host => ["--add-host", host])
      ++ (if (argsEnvApplied env build).Target != "" then
            ["--target", (argsEnvApplied env build).Target] else [])
      ++ (if (argsEnvApplied env build).Quiet then ["--quiet"] else [])
      ++ layersNF (argsEnvApplied env build)
      ++ autoLabelNF now (argsEnvApplied env build)
      ++ (if 0 < (argsEnvApplied env build).Labels.length then
            (argsEnvApplied env build).Labels.flatMap (fun label => ["--label", label])
          else [])
      ++ ["-t", (argsEnvApplied env build).Name], ?_⟩
  rw [argsEnvApplied_Context]
  simp [List.append_assoc]

/-- C3: the command list built by `Plugin.Exec` is, in order: version,
info, one pull per `CacheFrom` entry in list order, the build, then per
tag in `Tags` order a tag command followed (unless dry-run) by the push
of that same tag, and finally a remove-image command exactly when
`Cleanup` is set. -/
theorem exec_command_order (env : Env) (now : String) (p : Plugin) :
    execPlan env now p =
      [commandVersion, commandInfo]
      ++ p.Build.CacheFrom.map commandPull
      ++ [commandBuild env now (addProxyBuildArgs env p.Build)]
      ++ p.Build.Tags.flatMap (fun tag =>
          commandTag p.Build tag :: (if p.Dryrun then [] else [commandPush p.Build tag]))
      ++ (if p.Cleanup then [commandRmi p.Build.Name] else []) :=
  execPlan_eq env now p

/-- C4: proxy-argument injection is idempotent — running
`addProxyBuildArgs` on its own result changes nothing, for every build
and every environment. -/
theorem addProxyBuildArgs_idem (env : Env) (b : Build) :
    addProxyBuildArgs env (addProxyBuildArgs env b) = addProxyBuildArgs env b := by
  refine addProxyBuildArgs_fix env _ ?_ ?_ ?_
  · by_cases hv : 0 < (getProxyValue env "http_proxy").length
    · exact Or.inr (hasProxy_addProxyBuildArgs env b "http_proxy" (Or.inl rfl) hv)
    · exact Or.inl (by omega)
  · by_cases hv : 0 < (getProxyValue env "https_proxy").length
    · exact Or.inr (hasProxy_addProxyBuildArgs env b "https_proxy" (Or.inr (Or.inl rfl)) hv)
    · exact Or.inl (by omega)
  · by_cases hv : 0 < (getProxyValue env "no_proxy").length
    · exact Or.inr (hasProxy_addProxyBuildArgs env b "no_proxy" (Or.inr (Or.inr rfl)) hv)
    · exact Or.inl (by omega)

/-- C5: with auto-labelling on, `commandBuild` emits exactly the 4 base
labels (created, revision = name, source = remote, url = link) followed
by the configured label-schema entries, each as a `--label` flag prefixed
with `org.opencontainers.image.`, and then every explicit label as a
`--label` flag without that prefix. -/
theorem commandBuild_autoLabel (env : Env) (now : String) (build : Build)
    (h : build.AutoLabel = true) :
    (["created=" ++ now, "revision=" ++ build.Name, "source=" ++ build.Remote,
        "url=" ++ build.Link] ++ build.LabelSchema).length
      = 4 + build.LabelSchema.length ∧
    ∃ pre, commandBuild env now build =
      pre
      ++ ((["created=" ++ now, "revision=" ++ build.Name, "source=" ++ build.Remote,
            "url=" ++ build.Link] ++ build.LabelSchema).flatMap
          (fun label => ["--label", "org.opencontainers.image" ++ "." ++ label]))
      ++ build.Labels.flatMap (fun label => ["--label", label])
      ++ ["-t", build.Name] ++ [build.Context] := by
  constructor
  · simp only [List.length_append, List.length_cons, List.length_nil]
  rw [commandBuild_eq]
  simp only [commandBuildNF]
  refine ⟨buildahExe :: (["--storage-driver", "vfs", "bud", "-f", build.Dockerfile]
      ++ (if build.Squash then ["--squash"] else [])
      ++ (if build.Compress then ["--compress"] else [])
      ++ (if build.Pull then ["--pull=true"] else [])
      ++ (if build.NoCache then ["--no-cache"] else [])
      ++ build.CacheFrom.flatMap (fun arg => ["--cache-from", arg])
      ++ (argsEnvApplied env build).Args.flatMap (fun arg => ["--build-arg", arg])
      ++ (argsEnvApplied env build).AddHost.flatMap (fun host => ["--add-host", host])
      ++ (if (argsEnvApplied env build).Target != "" then
            ["--target", (argsEnvApplied env build).Target] else [])
      ++ (if (argsEnvApplied env build).Quiet then ["--quiet"] else [])
      ++ layersNF (argsEnvApplied env build)), ?_⟩
  rw [autoLabelNF, argsEnvApplied_AutoLabel, h, if_pos rfl, argsEnvApplied_Name,
    argsEnvApplied_Remote, argsEnvApplied_Link, argsEnvApplied_LabelSchema,
    argsEnvApplied_Labels, argsEnvApplied_Context, ite_len_self, ite_len_flatMap]
  simp [List.append_assoc]

theorem commandBuild_autoLabel_witness :
    (["created=" ++ "T", "revision=" ++ buildC5.Name, "source=" ++ buildC5.Remote,
        "url=" ++ buildC5.Link] ++ buildC5.LabelSchema).length
      = 4 + buildC5.LabelSchema.length ∧
    ∃ pre, commandBuild envEmpty "T" buildC5 =
      pre
      ++ ((["created=" ++ "T", "revision=" ++ buildC5.Name, "source=" ++ buildC5.Remote,
            "url=" ++ buildC5.Link] ++ buildC5.LabelSchema).flatMap
          (fun label => ["--label", "org.opencontainers.image" ++ "." ++ label]))
      ++ buildC5.Labels.flatMap (fun label => ["--label", label])
      ++ ["-t", buildC5.Name] ++ [buildC5.Context] :=
  commandBuild_autoLabel envEmpty "T" buildC5 rfl

/-- C6 counterexample: with one explicit arg `A=1` and one env-sourced
key `ek` (bound to `v`), the `--build-arg` flags place the explicit arg
BEFORE the env-derived ones, contradicting the claimed env-derived-first
order. -/
theorem c6_explicit_args_come_first :
    "A=1" ∈ commandBuild envEk "T" buildC6 ∧
    "ek=v" ∈ commandBuild envEk "T" buildC6 ∧
    (commandBuild envEk "T" buildC6).indexOf "A=1" <
      (commandBuild envEk "T" buildC6).indexOf "ek=v" := by
  refine ⟨by decide, by decide, by decide⟩

/-- C6 (amended): the build argument list carries one `--cache-from` per
cache entry, then one `--build-arg` per arg with the explicitly supplied
`Args` first (in supplied order) followed by the `ArgsEnv`-derived
injected args, then one `--add-host` per host entry, all contiguous and
in list order. -/
theorem build_repeated_flags (env : Env) (now : String) (build : Build) :
    ∃ pre derived suf,
      (argsEnvApplied env build).Args = build.Args ++ derived ∧
      commandBuild env now build =
        pre
        ++ build.CacheFrom.flatMap (fun arg => ["--cache-from", arg])
        ++ (build.Args ++ derived).flatMap (fun arg => ["--build-arg", arg])
        ++ build.AddHost.flatMap (fun host => ["--add-host", host])
        ++ suf := by
  obtain ⟨derived, hd⟩ := argsEnvApplied_args_extend env build
  refine ⟨buildahExe :: (["--storage-driver", "vfs", "bud", "-f", build.Dockerfile]
      ++ (if build.Squash then ["--squash"] else [])
      ++ (if build.Compress then ["--compress"] else [])
      ++ (if build.Pull then ["--pull=true"] else [])
      ++ (if build.NoCache then ["--no-cache"] else [])), derived,
    (if (argsEnvApplied env build).Target != "" then
        ["--target", (argsEnvApplied env build).Target] else [])
      ++ (if (argsEnvApplied env build).Quiet then ["--quiet"] else [])
      ++ layersNF (argsEnvApplied env build)
      ++ autoLabelNF now (argsEnvApplied env build)
      ++ (if 0 < (argsEnvApplied env build).Labels.length then
            (argsEnvApplied env build).Labels.flatMap (fun label => ["--label", label])
          else [])
      ++ ["-t", (argsEnvApplied env build).Name]
      ++ [(argsEnvApplied env build).Context], hd, ?_⟩
  rw [commandBuild_eq]
  simp only [commandBuildNF]
  rw [← hd, argsEnvApplied_AddHost]
  simp [List.append_assoc]

/-- C7 counterexample: the arg `hTtp_proxy=x` starts with the proxy key
`http_proxy` up to letter-casing, yet `hasProxyBuildArg` does not report
it present and `addProxyValue` re-inserts the proxy pair — the presence
check is not case-insensitive. -/
theorem c7_mixed_case_not_detected :
    hasProxyBuildArg buildC7 "http_proxy" = false ∧
    (addProxyValue envHttp buildC7 "http_proxy").Args =
      ["hTtp_proxy=x", "http_proxy=p", "HTTP_PROXY=p"] := by
  exact ⟨by decide, by decide⟩

/-- C7 (amended): the presence check matches an existing arg only when it
starts with the key exactly as given or in its all-upper-case form; for
args in either of those two casings `hasProxyBuildArg` reports presence
and `addProxyValue` does not insert anything. -/
theorem hasProxy_exact_or_upper (env : Env) (b : Build) (k s : String)
    (hs : s ∈ b.Args)
    (h : sStartsWith s k = true ∨ sStartsWith s (sToUpper k) = true) :
    hasProxyBuildArg b k = true ∧ addProxyValue env b k = b := by
  have hhas : hasProxyBuildArg b k = true := by
    simp only [hasProxyBuildArg, List.any_eq_true]
    exact ⟨s, hs, by rcases h with h | h <;> simp [h]⟩
  exact ⟨hhas, addProxyValue_noop env b k (Or.inr hhas)⟩

theorem hasProxy_exact_or_upper_witness :
    hasProxyBuildArg buildC7w "http_proxy" = true ∧
    addProxyValue envHttp buildC7w "http_proxy" = buildC7w :=
  hasProxy_exact_or_upper envHttp buildC7w "http_proxy" "HTTP_PROXY=z" (by decide)
    (Or.inr (by decide))

/-- C8: for each of the three proxy keys, `getProxyValue` returns the
exact-case environment value when non-empty and the upper-case one
otherwise; when the value is non-empty and no existing build-arg uses the
key, `addProxyValue` appends exactly the lower-case `key=value` pair
followed by the upper-case `KEY=value` pair, both with the same value. -/
theorem getProxy_addProxy_pairs (env : Env) (b : Build) (key : String)
    (hk : key ∈ (["http_proxy", "https_proxy", "no_proxy"] : List String)) :
    (0 < (env key).length → getProxyValue env key = env key) ∧
    ((env key).length = 0 → getProxyValue env key = env (sToUpper key)) ∧
    sToLower key = key ∧
    (0 < (getProxyValue env key).length → hasProxyBuildArg b key = false →
      (addProxyValue env b key).Args =
        b.Args ++ [key ++ "=" ++ getProxyValue env key,
          sToUpper key ++ "=" ++ getProxyValue env key]) := by
  refine ⟨?_, ?_, ?_, ?_⟩
  · intro h
    simp only [getProxyValue]
    rw [if_pos h]
  · intro h
    simp only [getProxyValue]
    rw [if_neg (by omega)]
  · simp only [List.mem_cons, List.not_mem_nil, or_false] at hk
    rcases hk with h | h | h <;> subst h <;> decide
  · intro hv hh
    simp only [addProxyValue]
    rw [if_pos (by simp [hv, hh])]
    simp [List.append_assoc]

theorem getProxy_addProxy_pairs_witness :
    getProxyValue envHttp "http_proxy" = envHttp "http_proxy" ∧
    (addProxyValue envHttp emptyBuild "http_proxy").Args =
      ["http_proxy=p", "HTTP_PROXY=p"] := by
  have H := getProxy_addProxy_pairs envHttp emptyBuild "http_proxy" (by decide)
  refine ⟨H.1 (by decide), ?_⟩
  have h4 := H.2.2.2 (by decide) (by decide)
  rw [h4]
  decide

/-- C9: proxy-argument injection (both the fixed-key pass of `Exec` and
the per-entry `ArgsEnv` pass of `commandBuild`) changes only the `Args`
field of the `Build`: restoring the original `Args` restores the whole
record, and the enclosing plugin's `Login`, dry-run and cleanup fields
are untouched. -/
theorem proxy_injection_frame (env : Env) (p : Plugin) (b : Build) :
    (pluginAfterProxy env p).Login = p.Login ∧
    (pluginAfterProxy env p).Dryrun = p.Dryrun ∧
    (pluginAfterProxy env p).Cleanup = p.Cleanup ∧
    { (pluginAfterProxy env p).Build with Args := p.Build.Args } = p.Build ∧
    { addProxyBuildArgs env b with Args := b.Args } = b ∧
    { argsEnvApplied env b with Args := b.Args } = b := by
  refine ⟨rfl, rfl, rfl, ?_, ?_, ?_⟩
  · exact addProxyBuildArgs_frame env p.Build
  · exact addProxyBuildArgs_frame env b
  · exact argsEnvApplied_frame env b

/-- C10: every push command in the `Plugin.Exec` sequence pushes exactly
`Repo:tag` for some configured tag, and is immediately preceded by the
tag command for that same target, whose source is the build `Name`; the
pushed reference is derived from `Repo`, never from `Name`. -/
theorem push_preceded_by_matching_tag (env : Env) (now : String) (p : Plugin)
    (i : Nat) (cmd : List String)
    (hc : (execPlan env now p)[i]? = some cmd) (hp : isPushCmd cmd = true) :
    ∃ t, t ∈ p.Build.Tags ∧
      cmd = commandPush p.Build t ∧
      commandPush p.Build t =
        [buildahExe, "--storage-driver", "vfs", "push", p.Build.Repo ++ ":" ++ t] ∧
      1 ≤ i ∧
      (execPlan env now p)[i-1]? = some (commandTag p.Build t) ∧
      commandTag p.Build t =
        [buildahExe, "--storage-driver", "vfs", "tag", p.Build.Name,
          p.Build.Repo ++ ":" ++ t] := by
  obtain ⟨t, ht, hc', h1, hprev⟩ := execPlan_pushTagged env now p i cmd hc hp
  exact ⟨t, ht, hc', rfl, h1, hprev, rfl⟩

theorem push_preceded_by_matching_tag_witness :
    ∃ t, t ∈ pluginC10.Build.Tags ∧
      (["buildah", "--storage-driver", "vfs", "push", "r:v"] : List String) =
        commandPush pluginC10.Build t ∧
      commandPush pluginC10.Build t =
        [buildahExe, "--storage-driver", "vfs", "push", pluginC10.Build.Repo ++ ":" ++ t] ∧
      1 ≤ 4 ∧
      (execPlan envEmpty "T" pluginC10)[4-1]? = some (commandTag pluginC10.Build t) ∧
      commandTag pluginC10.Build t =
        [buildahExe, "--storage-driver", "vfs", "tag", pluginC10.Build.Name,
          pluginC10.Build.Repo ++ ":" ++ t] :=
  push_preceded_by_matching_tag envEmpty "T" pluginC10 4
    ["buildah", "--storage-driver", "vfs", "push", "r:v"] (by decide) (by decide)
